import Mathlib

/-!
Verification development for the OPE prompt-enhancement pipeline
(`src/engine/*.ts`, `src/ports/*.ts`, `src/lib/*.ts`).

The TypeScript sources are shallowly embedded: each pure function is
translated into an executable Lean definition over explicit data types.
JavaScript platform builtins that the code relies on (`JSON.parse`,
`JSON.stringify`, `String(x)`, `new URL(...)`, number-to-string
formatting) are modelled explicitly; where a builtin's behaviour is
genuinely platform-defined (float formatting, URL parsing) the model is
parameterised so that theorems hold for every choice of that primitive.
JavaScript numbers are modelled by the numeric literal they were parsed
from (plus a formatting parameter) or by rationals `ℚ`; the claims
settled here never depend on float rounding, and every weight/score in
the sources is exactly representable in `ℚ`.
-/

/-! ## JavaScript character and string primitives -/

/-- Characters matched by JavaScript's `\s` and stripped by
`String.prototype.trim`: ASCII whitespace, NBSP, the Unicode `Zs`
separators, line/paragraph separators and the BOM. -/
def jsIsSpace (c : Char) : Bool :=
  c == ' ' || c == '\t' || c == '\n' || c == '\r' || c == '\x0b' || c == '\x0c' ||
  c.val == 0xa0 || c.val == 0x1680 || (0x2000 ≤ c.val && c.val ≤ 0x200a) ||
  c.val == 0x2028 || c.val == 0x2029 || c.val == 0x202f || c.val == 0x205f ||
  c.val == 0x3000 || c.val == 0xfeff

/-- Regex `\w`: ASCII letters, digits and underscore. -/
def jsIsWordChar (c : Char) : Bool :=
  ('a' ≤ c && c ≤ 'z') || ('A' ≤ c && c ≤ 'Z') || ('0' ≤ c && c ≤ '9') || c == '_'

/-- Case-insensitive character comparison for the regex `i` flag
(simple lower-case folding, which is exact for the ASCII patterns used). -/
def ciEq (a b : Char) : Bool := a.toLower == b.toLower

/-- Models `String.prototype.trim`: strip leading and trailing whitespace. -/
def jsTrim (s : String) : String :=
  String.mk (((s.toList.dropWhile jsIsSpace).reverse.dropWhile jsIsSpace).reverse)

/-- Models the JavaScript `String.prototype.length`: the number of UTF-16
code units (astral characters count twice). -/
def jsLength (s : String) : Nat :=
  (s.toList.map (fun c => if c.val ≥ 0x10000 then 2 else 1)).sum

/-- Models `String.prototype.toLowerCase` (simple case folding, exact for
the ASCII table entries involved). -/
def jsToLower (s : String) : String :=
  String.mk (s.toList.map Char.toLower)

/-- Models `haystack.includes(needle)`: substring containment. -/
def jsIncludes (haystack needle : String) : Bool :=
  let rec go : List Char → Bool
    | [] => needle.toList.isPrefixOf []
    | c :: rest => needle.toList.isPrefixOf (c :: rest) || go rest
  go haystack.toList

/-! ## JSON values

`Json` models the values `JSON.parse` can produce.  A number is kept as the
numeric literal it was parsed from; rendering it back to a string (JavaScript
float formatting) is a platform primitive and is a parameter of the
definitions that need it.  Objects are association lists without duplicate
keys, in insertion order, exactly as JavaScript objects built by `JSON.parse`. -/

inductive Json where
  | null : Json
  | bool (b : Bool) : Json
  | num (lit : String) : Json
  | str (s : String) : Json
  | arr (elems : List Json) : Json
  | obj (fields : List (String × Json)) : Json

/-- Models the JavaScript `typeof` operator on JSON-parsed values
(`typeof null` and `typeof []` are both `"object"`). -/
def jsTypeof : Json → String
  | .null => "object"
  | .bool _ => "boolean"
  | .num _ => "number"
  | .str _ => "string"
  | .arr _ => "object"
  | .obj _ => "object"

/-- Whether a parsed numeric literal denotes (plus or minus) zero: every
mantissa digit is `0`.  (A literal that underflows to zero at float
conversion, such as `1e-400`, is misclassified, but a number is a
non-object for `validateOrRepair` regardless of its truthiness.) -/
def numLitIsZero (lit : String) : Bool :=
  (lit.toList.takeWhile (fun c => c != 'e' && c != 'E')).all
    (fun c => c == '0' || c == '.' || c == '-' || c == '+')

/-- JavaScript falsiness of a JSON-parsed value (`!parsed`). -/
def Json.isFalsy : Json → Bool
  | .null => true
  | .bool b => !b
  | .num lit => numLitIsZero lit
  | .str s => s.isEmpty
  | .arr _ => false
  | .obj _ => false

/-- Models `Array.isArray`. -/
def Json.isArray : Json → Bool
  | .arr _ => true
  | _ => false

/-- Reads a string as a decimal natural number, if it is one (used to model
array index properties). -/
def decimalNat? (k : String) : Option Nat :=
  let rec go : List Char → Nat → Option Nat
    | [], acc => some acc
    | c :: rest, acc =>
      if '0' ≤ c && c ≤ '9' then go rest (acc * 10 + (c.toNat - '0'.toNat))
      else none
  match k.toList with
  | [] => none
  | cs => go cs 0

/-- Models the JavaScript `in` operator (`key in value`) for the values that
reach it in `validateOrRepair`: object key membership; on arrays only the
`length` property and the element indices exist. -/
def Json.hasKey : Json → String → Bool
  | .obj fields, k => fields.any (fun f => f.1 == k)
  | .arr elems, k =>
    k == "length" || ((decimalNat? k).map (fun i => decide (i < elems.length))).getD false
  | _, _ => false

/-- Property lookup on a parsed value (used only under a `hasKey` guard). -/
def Json.getProp : Json → String → Json
  | .obj fields, k => ((fields.find? (fun f => f.1 == k)).map (·.2)).getD .null
  | _, _ => .null

/-- Inserting a key into a JavaScript object: a repeated key overwrites the
value but keeps the first occurrence's position (`JSON.parse` duplicate-key
semantics: the last value wins). -/
def jsObjInsert (fields : List (String × Json)) (k : String) (v : Json) :
    List (String × Json) :=
  if fields.any (fun f => f.1 == k) then
    fields.map (fun f => if f.1 == k then (k, v) else f)
  else
    fields ++ [(k, v)]

/-! ## A JSON parser, modelling `JSON.parse`

Fuel-indexed recursive-descent parser for the exact JSON grammar
(ECMA-404, as implemented by `JSON.parse`): the four whitespace
characters, `null`/`true`/`false`, numbers, strings with escapes,
arrays and objects.  Running out of fuel yields an error, which lands
in the same repair branch as a thrown `JSON.parse` exception. -/

/-- The four JSON whitespace characters. -/
def jsonWs (c : Char) : Bool := c == ' ' || c == '\t' || c == '\n' || c == '\r'

def skipJsonWs (cs : List Char) : List Char := cs.dropWhile jsonWs

/-- Parse exactly four hex digits into a code unit. -/
def parseHex4 : List Char → Option (Nat × List Char)
  | a :: b :: c :: d :: rest =>
    let hv : Char → Option Nat := fun ch =>
      if '0' ≤ ch && ch ≤ '9' then some (ch.toNat - '0'.toNat)
      else if 'a' ≤ ch && ch ≤ 'f' then some (ch.toNat - 'a'.toNat + 10)
      else if 'A' ≤ ch && ch ≤ 'F' then some (ch.toNat - 'A'.toNat + 10)
      else none
    match hv a, hv b, hv c, hv d with
    | some x, some y, some z, some w => some (((x * 16 + y) * 16 + z) * 16 + w, rest)
    | _, _, _, _ => none
  | _ => none

/-- Parse the body of a JSON string (after the opening quote).  Surrogate
pairs written as two `\uXXXX` escapes are combined; a lone surrogate is
replaced by U+FFFD (Lean strings hold Unicode scalar values). -/
def parseJsonString : Nat → List Char → Except String (List Char × List Char)
  | 0, _ => .error "string fuel exhausted"
  | _, [] => .error "unterminated string"
  | fuel + 1, c :: rest =>
    if c == '"' then .ok ([], rest)
    else if c == '\\' then
      match rest with
      | [] => .error "unterminated escape"
      | e :: rest2 =>
        let simple : Option Char :=
          if e == '"' then some '"' else if e == '\\' then some '\\'
          else if e == '/' then some '/' else if e == 'b' then some '\x08'
          else if e == 'f' then some '\x0c' else if e == 'n' then some '\n'
          else if e == 'r' then some '\r' else if e == 't' then some '\t'
          else none
        match simple with
        | some ch => (parseJsonString fuel rest2).map (fun (s, r) => (ch :: s, r))
        | none =>
          if e == 'u' then
            match parseHex4 rest2 with
            | none => .error "bad unicode escape"
            | some (n, rest3) =>
              if 0xd800 ≤ n && n ≤ 0xdbff then
                match rest3 with
                | '\\' :: 'u' :: rest4 =>
                  match parseHex4 rest4 with
                  | some (m, rest5) =>
                    if 0xdc00 ≤ m && m ≤ 0xdfff then
                      let code := 0x10000 + (n - 0xd800) * 0x400 + (m - 0xdc00)
                      (parseJsonString fuel rest5).map
                        (fun (s, r) => (Char.ofNat code :: s, r))
                    else
                      (parseJsonString fuel rest3).map
                        (fun (s, r) => (Char.ofNat 0xfffd :: s, r))
                  | none =>
                    (parseJsonString fuel rest3).map
                      (fun (s, r) => (Char.ofNat 0xfffd :: s, r))
                | _ =>
                  (parseJsonString fuel rest3).map
                    (fun (s, r) => (Char.ofNat 0xfffd :: s, r))
              else if 0xdc00 ≤ n && n ≤ 0xdfff then
                (parseJsonString fuel rest3).map
                  (fun (s, r) => (Char.ofNat 0xfffd :: s, r))
              else
                (parseJsonString fuel rest3).map
                  (fun (s, r) => (Char.ofNat n :: s, r))
          else .error "bad escape"
    else if c.val < 0x20 then .error "control character in string"
    else (parseJsonString fuel rest).map (fun (s, r) => (c :: s, r))

/-- Parse a JSON number, returning its literal text. -/
def parseJsonNumber (cs : List Char) : Except String (String × List Char) :=
  let isDigit : Char → Bool := fun c => '0' ≤ c && c ≤ '9'
  let (sign, cs1) := match cs with
    | '-' :: r => ((['-'] : List Char), r)
    | _ => (([] : List Char), cs)
  let intPart := cs1.takeWhile isDigit
  if intPart.isEmpty then .error "number expected"
  else if intPart.length > 1 && intPart.headD '0' == '0' then .error "leading zero"
  else
    let rest1 := cs1.drop intPart.length
    let fracRes : Except String (List Char × List Char) :=
      match rest1 with
      | '.' :: r =>
        let ds := r.takeWhile isDigit
        if ds.isEmpty then .error "digits expected after decimal point"
        else .ok ('.' :: ds, r.drop ds.length)
      | _ => .ok ([], rest1)
    match fracRes with
    | .error m => .error m
    | .ok (fracPart, rest2) =>
      let expRes : Except String (List Char × List Char) :=
        match rest2 with
        | e :: r =>
          if e == 'e' || e == 'E' then
            let (sgn, r2) := match r with
              | s :: r3 => if s == '+' || s == '-' then (([s] : List Char), r3)
                           else (([] : List Char), r)
              | [] => (([] : List Char), r)
            let ds := r2.takeWhile isDigit
            if ds.isEmpty then .error "digits expected in exponent"
            else .ok (e :: (sgn ++ ds), r2.drop ds.length)
          else .ok ([], rest2)
        | [] => .ok ([], rest2)
      match expRes with
      | .error m => .error m
      | .ok (expPart, rest3) =>
        .ok (String.mk (sign ++ intPart ++ fracPart ++ expPart), rest3)

mutual

/-- Parse one JSON value (leading whitespace allowed). -/
def parseJsonValue : Nat → List Char → Except String (Json × List Char)
  | 0, _ => .error "fuel exhausted"
  | fuel + 1, cs =>
    match skipJsonWs cs with
    | [] => .error "unexpected end of input"
    | c :: rest =>
      if c == '{' then parseJsonMembers fuel rest true []
      else if c == '[' then parseJsonElements fuel rest true []
      else if c == '"' then
        (parseJsonString (rest.length + 1) rest).map (fun (s, r) => (.str (String.mk s), r))
      else if c == 't' then
        match rest with
        | 'r' :: 'u' :: 'e' :: r => .ok (.bool true, r)
        | _ => .error "bad literal"
      else if c == 'f' then
        match rest with
        | 'a' :: 'l' :: 's' :: 'e' :: r => .ok (.bool false, r)
        | _ => .error "bad literal"
      else if c == 'n' then
        match rest with
        | 'u' :: 'l' :: 'l' :: r => .ok (.null, r)
        | _ => .error "bad literal"
      else
        (parseJsonNumber (c :: rest)).map (fun (lit, r) => (.num lit, r))

/-- Parse object members after `{`; `first` is true before any member. -/
def parseJsonMembers : Nat → List Char → Bool → List (String × Json) →
    Except String (Json × List Char)
  | 0, _, _, _ => .error "fuel exhausted"
  | fuel + 1, cs, first, acc =>
    match skipJsonWs cs with
    | [] => .error "unterminated object"
    | c :: rest =>
      if c == '}' then .ok (.obj acc, rest)
      else
        let afterSep : Except String (List Char) :=
          if first then .ok (c :: rest)
          else if c == ',' then .ok rest
          else .error "expected comma or closing brace"
        match afterSep with
        | .error m => .error m
        | .ok cs2 =>
          match skipJsonWs cs2 with
          | '"' :: rest2 =>
            match parseJsonString (rest2.length + 1) rest2 with
            | .error m => .error m
            | .ok (k, rest3) =>
              match skipJsonWs rest3 with
              | ':' :: rest4 =>
                match parseJsonValue fuel rest4 with
                | .error m => .error m
                | .ok (v, rest5) =>
                  parseJsonMembers fuel rest5 false (jsObjInsert acc (String.mk k) v)
              | _ => .error "expected colon"
          | _ => .error "expected string key"

/-- Parse array elements after `[`. -/
def parseJsonElements : Nat → List Char → Bool → List Json →
    Except String (Json × List Char)
  | 0, _, _, _ => .error "fuel exhausted"
  | fuel + 1, cs, first, acc =>
    match skipJsonWs cs with
    | [] => .error "unterminated array"
    | c :: rest =>
      if c == ']' then .ok (.arr acc, rest)
      else
        let cs2 : Except String (List Char) :=
          if first then .ok (c :: rest)
          else if c == ',' then .ok rest
          else .error "expected comma or closing bracket"
        match cs2 with
        | .error m => .error m
        | .ok cs3 =>
          match parseJsonValue fuel cs3 with
          | .error m => .error m
          | .ok (v, rest2) => parseJsonElements fuel rest2 false (acc ++ [v])

end

/-- Models `JSON.parse`: parse a complete JSON text. -/
def jsonParse (text : String) : Except String Json :=
  let cs := text.toList
  match parseJsonValue (cs.length + 2) cs with
  | .error e => .error e
  | .ok (v, rest) =>
    if (skipJsonWs rest).isEmpty then .ok v else .error "unexpected trailing characters"

/-! ## `JSON.stringify` and `String(x)` models -/

/-- Lower-case hex digit. -/
def hexDigit (n : Nat) : Char :=
  if n < 10 then Char.ofNat ('0'.toNat + n) else Char.ofNat ('a'.toNat + n - 10)

/-- JSON string quoting as performed by `JSON.stringify`: wrap in quotes and
escape the quote, backslash and control characters. -/
def jsonQuote (s : String) : String :=
  let esc : Char → List Char := fun c =>
    if c == '"' then ['\\', '"']
    else if c == '\\' then ['\\', '\\']
    else if c == '\x08' then ['\\', 'b']
    else if c == '\t' then ['\\', 't']
    else if c == '\n' then ['\\', 'n']
    else if c == '\x0c' then ['\\', 'f']
    else if c == '\r' then ['\\', 'r']
    else if c.val < 0x20 then
      ['\\', 'u', '0', '0', hexDigit (c.toNat / 16), hexDigit (c.toNat % 16)]
    else [c]
  String.mk ('"' :: (s.toList.map esc).flatten ++ ['"'])

mutual

/-- Models `JSON.stringify` on JSON-parsed values.  `nts` renders a numeric
literal the way JavaScript renders the float it denotes (a platform
primitive; the identity on canonical literals). -/
def jsonStringify (nts : String → String) : Json → String
  | .null => "null"
  | .bool true => "true"
  | .bool false => "false"
  | .num lit => nts lit
  | .str s => jsonQuote s
  | .arr es => "[" ++ String.intercalate "," (jsonStringifyList nts es) ++ "]"
  | .obj fs => "\x7b" ++ String.intercalate "," (jsonStringifyFields nts fs) ++ "\x7d"

def jsonStringifyList (nts : String → String) : List Json → List String
  | [] => []
  | v :: vs => jsonStringify nts v :: jsonStringifyList nts vs

def jsonStringifyFields (nts : String → String) : List (String × Json) → List String
  | [] => []
  | (k, v) :: fs => (jsonQuote k ++ ":" ++ jsonStringify nts v) :: jsonStringifyFields nts fs

end

mutual

/-- Models the JavaScript `String(x)` conversion on JSON-parsed values
(arrays join their converted elements with commas; objects render as
`[object Object]`). -/
def jsToString (nts : String → String) : Json → String
  | .null => "null"
  | .bool true => "true"
  | .bool false => "false"
  | .num lit => nts lit
  | .str s => s
  | .arr es => String.intercalate "," (jsToStringElems nts es)
  | .obj _ => "[object Object]"

def jsToStringElems (nts : String → String) : List Json → List String
  | [] => []
  | v :: vs =>
    (match v with
     | .null => ""
     | w => jsToString nts w) :: jsToStringElems nts vs

end

/-- Models `String(x ?? "")`: a `null` becomes the empty string. -/
def jsToStringNullish (nts : String → String) : Json → String
  | .null => ""
  | v => jsToString nts v

/-- Model of JavaScript number formatting used where a claim needs a closed
instance: the identity on the (canonical) literals involved. -/
def jsNumToStrModel (lit : String) : String := lit

/-- Model of whether `new URL(s)` succeeds (WHATWG URL parser): the string
must start with a scheme (`[a-z][a-z0-9+.-]*:`); a special scheme further
requires a non-empty, space-free host. -/
def urlOkModel (s : String) : Bool :=
  let isAlpha : Char → Bool := fun c => ('a' ≤ c && c ≤ 'z') || ('A' ≤ c && c ≤ 'Z')
  let isSchemeChar : Char → Bool := fun c =>
    isAlpha c || ('0' ≤ c && c ≤ '9') || c == '+' || c == '-' || c == '.'
  match s.toList with
  | [] => false
  | c :: rest =>
    if !isAlpha c then false
    else
      match rest.dropWhile isSchemeChar with
      | ':' :: after =>
        let scheme := String.mk ((c :: rest.takeWhile isSchemeChar).map Char.toLower)
        if scheme == "http" || scheme == "https" || scheme == "ws" ||
            scheme == "wss" || scheme == "ftp" then
          let afterSlashes := after.dropWhile (fun d => d == '/' || d == '\\')
          let host := afterSlashes.takeWhile
            (fun d => d != '/' && d != '?' && d != '#' && d != '\\')
          !host.isEmpty && host.all (fun d => !jsIsSpace d)
        else true
      | _ => false

/-! ## `src/lib/branded.ts` — the safe citation-URL constructor -/

/-- Embeds `makeCitationUrlSafe` (`src/lib/branded.ts`, also exposed through
`src/ports/config.ts`): `"unknown"` passes through, a string accepted by
`new URL` passes through, anything else becomes `"unknown"`.  The `try/catch`
around `new URL` is modelled by the boolean primitive `urlOk`, so the
function is total by construction. -/
def makeCitationUrlSafe (urlOk : String → Bool) (s : String) : String :=
  if s == "unknown" then s
  else if urlOk s then s
  else "unknown"

/-! ## `src/engine/validate.ts` -/

/-- The platform primitives `validateOrRepair` depends on. -/
structure JsPrims where
  numToStr : String → String
  urlOk : String → Bool

/-- The closed instance of the platform primitives used for concrete
evaluations. -/
def jsPrimsModel : JsPrims := { numToStr := jsNumToStrModel, urlOk := urlOkModel }

structure OutShape where
  answer : String
  citations : List String
deriving DecidableEq

inductive ValidationError where
  | INVALID_JSON (parseError : String)
  | MISSING_FIELDS (missingFields : List String)
  | INVALID_TYPES (issues : List String)
deriving DecidableEq

/-- The `kind` discriminant of a `ValidationError`. -/
def ValidationError.kind : ValidationError → String
  | .INVALID_JSON _ => "INVALID_JSON"
  | .MISSING_FIELDS _ => "MISSING_FIELDS"
  | .INVALID_TYPES _ => "INVALID_TYPES"

/-- `ValidationResult`, with the `ok` discriminant made an explicit field so
that "never returns `ok: false`" is a statement rather than a typing
convention. -/
structure ValidationResult where
  ok : Bool
  value : OutShape
  repaired : Bool
  repairReason : Option String := none
  originalError : Option ValidationError := none
deriving DecidableEq

/-- Embeds `validateOrRepair` (`src/engine/validate.ts`).  The `try` around
`JSON.parse` is the `Except` returned by the parser model; every other step
is translated branch by branch. -/
def validateOrRepair (P : JsPrims) (text : String) : ValidationResult :=
  match jsonParse text with
  | .error e =>
    { ok := true
      value := { answer := jsTrim text, citations := [] }
      repaired := true
      repairReason := some "Invalid JSON - wrapped raw text as answer"
      originalError := some (.INVALID_JSON e) }
  | .ok parsed =>
    if parsed.isFalsy || jsTypeof parsed != "object" then
      { ok := true
        value := { answer := jsonStringify P.numToStr parsed, citations := [] }
        repaired := true
        repairReason := some "Parsed value was not an object"
        originalError := some (.INVALID_TYPES ["Expected object, got " ++ jsTypeof parsed]) }
    else
      let missingFields :=
        (if parsed.hasKey "answer" then [] else ["answer"]) ++
        (if parsed.hasKey "citations" then [] else ["citations"])
      if missingFields.length > 0 then
        let answer :=
          if parsed.hasKey "answer" then jsToStringNullish P.numToStr (parsed.getProp "answer")
          else jsTrim text
        let citations :=
          if parsed.hasKey "citations" && (parsed.getProp "citations").isArray then
            match parsed.getProp "citations" with
            | .arr elems => elems.map (fun c => makeCitationUrlSafe P.urlOk (jsToString P.numToStr c))
            | _ => []
          else []
        { ok := true
          value := { answer := answer, citations := citations }
          repaired := true
          repairReason := some ("Missing required fields: " ++ String.intercalate ", " missingFields)
          originalError := some (.MISSING_FIELDS missingFields) }
      else
        let aVal := parsed.getProp "answer"
        let answer := jsToStringNullish P.numToStr aVal
        let answerIssues :=
          if jsTypeof aVal != "string" then
            ["answer was " ++ jsTypeof aVal ++ ", coerced to string"]
          else []
        let cVal := parsed.getProp "citations"
        let (citationIssues, citations) :=
          if !cVal.isArray then
            (["citations was " ++ jsTypeof cVal ++ ", expected array"], ([] : List String))
          else
            match cVal with
            | .arr elems =>
              ((elems.enum.filterMap (fun ic =>
                  if jsTypeof ic.2 != "string" then
                    some ("citation[" ++ toString ic.1 ++ "] was " ++ jsTypeof ic.2 ++
                      ", coerced to string")
                  else none)),
               elems.map (fun c => makeCitationUrlSafe P.urlOk (jsToString P.numToStr c)))
            | _ => ([], [])
        let invalidCitations := citations.filter (fun c => c == "unknown" && c != "unknown")
        let urlIssues :=
          if invalidCitations.length > 0 then
            [toString invalidCitations.length ++ " citations were invalid URLs (coerced to \"unknown\")"]
          else []
        let issues := answerIssues ++ citationIssues ++ urlIssues
        if issues.length > 0 then
          { ok := true
            value := { answer := answer, citations := citations }
            repaired := true
            repairReason := some "Type coercion or validation issues"
            originalError := some (.INVALID_TYPES issues) }
        else
          { ok := true
            value := { answer := answer, citations := citations }
            repaired := false }

/-! ## Regex scanning primitives

The handful of regular expressions used by the engine are hand-compiled
into scanners over character lists.  Each scanner documents the regex it
implements; alternations are tried in the regex's order, `\s+`/`\w+` use
maximal munch (safe here because what follows them can never start with a
character they consume), and the one optional group that needs it
backtracks explicitly. -/

/-- Match a literal case-insensitively, returning the remaining input. -/
def dropLitCi : List Char → List Char → Option (List Char)
  | [], cs => some cs
  | _ :: _, [] => none
  | l :: ls, c :: cs => if ciEq l c then dropLitCi ls cs else none

/-- `\s+` (maximal munch): the consumed whitespace and the rest. -/
def takeWs1 (cs : List Char) : Option (List Char × List Char) :=
  let ws := cs.takeWhile jsIsSpace
  if ws.isEmpty then none else some (ws, cs.drop ws.length)

/-- `\w+` (maximal munch): the consumed word and the rest. -/
def takeWord1 (cs : List Char) : Option (List Char × List Char) :=
  let w := cs.takeWhile jsIsWordChar
  if w.isEmpty then none else some (w, cs.drop w.length)

/-- `\b` after a match: next character is absent or not a word character. -/
def atWordBoundary : List Char → Bool
  | [] => true
  | c :: _ => !jsIsWordChar c

/-- Try an unanchored match at every position, left to right (regex
scanning order). -/
def scanFirst (m : List Char → Option (List Char)) : List Char → Option (List Char)
  | [] => m []
  | c :: rest => (m (c :: rest)) <|> scanFirst m rest

/-- Like `scanFirst` for boolean matchers whose pattern starts with `\b`:
the matcher also receives whether the position follows start-of-input or a
non-word character. -/
def scanExistsB (m : Bool → List Char → Bool) : Bool → List Char → Bool
  | bnd, [] => m bnd []
  | bnd, c :: rest => m bnd (c :: rest) || scanExistsB m (!jsIsWordChar c) rest

/-- The capture `(\w+(?:\s+\w+)?)`: one word, greedily extended by a second
word (with the separating whitespace included in the capture). -/
def captureWordPhrase (cs : List Char) : Option (List Char) :=
  match takeWord1 cs with
  | none => none
  | some (w1, r1) =>
    match takeWs1 r1 with
    | some (ws, r2) =>
      match takeWord1 r2 with
      | some (w2, _) => some (w1 ++ ws ++ w2)
      | none => some w1
    | none => some w1

/-! ## `src/engine/synthesize.ts` — `extractPromptHint` regexes -/

/-- `/what\s+(?:is|are)\s+(\w+(?:\s+\w+)?)/i` at one position. -/
def matchWhatAt (cs : List Char) : Option (List Char) := do
  let r ← dropLitCi "what".toList cs
  let (_, r) ← takeWs1 r
  let r ← (dropLitCi "is".toList r) <|> (dropLitCi "are".toList r)
  let (_, r) ← takeWs1 r
  captureWordPhrase r

/-- `/explain\s+(\w+(?:\s+\w+)?)/i` at one position. -/
def matchExplainAt (cs : List Char) : Option (List Char) := do
  let r ← dropLitCi "explain".toList cs
  let (_, r) ← takeWs1 r
  captureWordPhrase r

/-- `/how\s+(?:to|does|do)\s+(\w+(?:\s+\w+)?)/i` at one position (the
alternatives are tried with their continuation, in the regex's order). -/
def matchHowAt (cs : List Char) : Option (List Char) := do
  let r ← dropLitCi "how".toList cs
  let (_, r1) ← takeWs1 r
  (do
    let r ← dropLitCi "to".toList r1
    let (_, r) ← takeWs1 r
    captureWordPhrase r) <|>
  (do
    let r ← dropLitCi "does".toList r1
    let (_, r) ← takeWs1 r
    captureWordPhrase r) <|>
  (do
    let r ← dropLitCi "do".toList r1
    let (_, r) ← takeWs1 r
    captureWordPhrase r)

/-- Models `str.split(/\s+/)`: split on runs of whitespace (a leading run
produces a leading empty segment, as in JavaScript). -/
def jsSplitWs (s : String) : List String :=
  let rec go : List Char → List Char → List (List Char) → Bool → List (List Char)
    | [], cur, acc, _ => acc ++ [cur]
    | c :: rest, cur, acc, prevWs =>
      if jsIsSpace c then
        if prevWs then go rest [] acc true
        else go rest [] (acc ++ [cur]) true
      else go rest (cur ++ [c]) acc false
  (go s.toList [] [] false).map String.mk

/-- Embeds `extractPromptHint` (`src/engine/synthesize.ts`): the three
ordered regex attempts; the final word-count test selects between two
identical `null` results, exactly as in the source. -/
def extractPromptHint (rawPrompt : String) : Option String :=
  let words := jsSplitWs (jsToLower rawPrompt)
  match scanFirst matchWhatAt rawPrompt.toList with
  | some cap => some (String.mk cap)
  | none =>
    match scanFirst matchExplainAt rawPrompt.toList with
    | some cap => some (String.mk cap)
    | none =>
      match scanFirst matchHowAt rawPrompt.toList with
      | some cap => some (String.mk cap)
      | none => if words.length < 5 then none else none

/-! ## `src/ports/context.ts` — context instructions and validation -/

structure ContextInstruction where
  roleSuffix : Option String := none
  objectivePrefix : Option String := none
  additionalConstraints : Option (List String) := none
  additionalStyle : Option (List String) := none
  temperatureOverride : Option ℚ := none
  maxTokensOverride : Option ℚ := none
  systemSuffix : Option String := none
  userPrefix : Option String := none

/-- `MIN_TEMPERATURE` (`src/lib/branded.ts`). -/
def MIN_TEMPERATURE : ℚ := 0

/-- `MAX_TEMPERATURE` (`src/lib/branded.ts`). -/
def MAX_TEMPERATURE : ℚ := 2

inductive ContextValidationErrorKind where
  | INVALID_TEMPERATURE
  | INVALID_MAX_TOKENS
  | TEXT_TOO_LONG
deriving DecidableEq

/-- The text fields collected by `validateContextInstruction`, in source
order. -/
def contextTextFields (instr : ContextInstruction) : List String :=
  instr.roleSuffix.toList ++ ( ContextInstruction.objectivePrefix instr).toList ++
  instr.systemSuffix.toList ++ ( ContextInstruction.userPrefix instr).toList ++
  (instr.additionalConstraints.getD []) ++ (instr.additionalStyle.getD [])

/-- Embeds `validateContextInstruction` (`src/ports/context.ts`), returning
the `kind` of the first failing check (the human-readable `detail` string is
not modelled; the source's function-local `MAX_TEXT_LENGTH` constant is
hoisted to a top-level definition).  Checks run in source order:
temperature, then max tokens, then every text field's length. -/
def MAX_TEXT_LENGTH : Nat := 250000

def validateContextInstruction (instr : ContextInstruction) :
    Option ContextValidationErrorKind :=
  if instr.temperatureOverride.any
      (fun t => decide (t < MIN_TEMPERATURE) || decide (t > MAX_TEMPERATURE)) then
    some .INVALID_TEMPERATURE
  else if instr.maxTokensOverride.any
      (fun m => decide (m ≤ 0) || decide (m > 100000)) then
    some .INVALID_MAX_TOKENS
  else if (contextTextFields instr).any (fun text => decide (jsLength text > MAX_TEXT_LENGTH)) then
    some .TEXT_TOO_LONG
  else
    none

/-- A named context bundle (`ContextDefinition`, `src/ports/context.ts`). -/
structure ContextDefinition where
  id : String
  name : String
  description : String
  instruction : ContextInstruction

/-- The `ContextPort` record (`src/ports/context.ts`), with its three pure
accessors. -/
structure ContextPort where
  getContext : String → Option ContextDefinition
  listContexts : List String
  getAllContexts : List ContextDefinition

/-- Embeds `makeContextPort` (`src/ports/context.ts`): the lookup table is a
JavaScript `Map` built by inserting each definition keyed by its id.  A
repeated id keeps its first position but the last value, so `getContext`
finds the last definition with a given id, and `listContexts` is the key
set in first-insertion order. -/
def makeContextPort (contexts : List ContextDefinition) : ContextPort :=
  { getContext := fun contextId => contexts.reverse.find? (fun c => c.id == contextId)
    listContexts := (contexts.map (fun c => c.id)).eraseDups
    getAllContexts := contexts }

/-- Models the pure core of `loadContexts` (the context-configuration
module staged in `src/lib/result.ts`): the file read, the markdown parse
and the log sink are outside the model, so it takes the successfully
parsed context list and returns the built port together with the ids
logged as validation warnings.  The port is built from the full list:
a context whose instruction fails validation is warned about but not
removed before `makeContextPort`. -/
def loadContexts (contexts : List ContextDefinition) : ContextPort × List String :=
  (makeContextPort contexts,
   (contexts.filter (fun c => (validateContextInstruction c.instruction).isSome)).map
     (fun c => c.id))

/-- A concrete context definition whose overlay fails validation
(`temperatureOverride = 3`), used to examine what loading does with it. -/
def hotContext : ContextDefinition :=
  { id := "hot", name := "Hot", description := "temperature 3 overlay",
    instruction := { temperatureOverride := some 3 } }

/-! ## `src/lib/patterns.ts` — pattern tables -/

/-- `DomainPattern`: one entry of the domain-detection table.  Each regex is
modelled as a boolean matcher on the raw prompt.  The weights appearing in
the source (`2`, `1`, `0.5`) are powers of two, so `ℚ` models the float
arithmetic exactly. -/
structure DomainPattern where
  domain : String
  keywords : List String
  patterns : List (String → Bool)
  weight : ℚ

/-- `MIN_KEYWORD_MATCHES` (`src/lib/patterns.ts`). -/
def MIN_KEYWORD_MATCHES : Nat := 2

/-- `MIN_PATTERN_MATCHES` (`src/lib/patterns.ts`). -/
def MIN_PATTERN_MATCHES : Nat := 1

/-- One entry of the vague-term table: a matcher for the regex, the term
label, and the score contribution. -/
structure VagueTerm where
  pattern : String → Bool
  term : String
  score : ℚ

/-- `/^(?:explain|fix|help with)\s+<word>\b/i` (the first three vague-term
regexes, which differ only in the trailing word). -/
def vagueDangling (word : String) (s : String) : Bool :=
  (do
    let cs := s.toList
    let r ← (dropLitCi "explain".toList cs) <|> (dropLitCi "fix".toList cs) <|>
      (dropLitCi "help with".toList cs)
    let (_, r) ← takeWs1 r
    let r ← dropLitCi word.toList r
    if atWordBoundary r then some () else none).isSome

/-- `/\bmake\s+it\s+(?:better|work|faster)\b/i`. -/
def vagueMakeIt (s : String) : Bool :=
  scanExistsB
    (fun bnd cs =>
      bnd &&
      (do
        let r ← dropLitCi "make".toList cs
        let (_, r) ← takeWs1 r
        let r ← dropLitCi "it".toList r
        let (_, r) ← takeWs1 r
        let r ← (dropLitCi "better".toList r) <|> (dropLitCi "work".toList r) <|>
          (dropLitCi "faster".toList r)
        if atWordBoundary r then some () else none).isSome)
    true s.toList

/-- `/^(?:help|assist)\s*$/i`. -/
def vagueHelpOnly (s : String) : Bool :=
  (do
    let cs := s.toList
    let r ← (dropLitCi "help".toList cs) <|> (dropLitCi "assist".toList cs)
    let r := r.dropWhile jsIsSpace
    if r.isEmpty then some () else none).isSome

/-- `/^(?:what|how|why)\s*\??\s*$/i`. -/
def vagueIncompleteQuestion (s : String) : Bool :=
  (do
    let cs := s.toList
    let r ← (dropLitCi "what".toList cs) <|> (dropLitCi "how".toList cs) <|>
      (dropLitCi "why".toList cs)
    let r := r.dropWhile jsIsSpace
    let r := match r with
      | '?' :: rest => rest
      | other => other
    let r := r.dropWhile jsIsSpace
    if r.isEmpty then some () else none).isSome

/-- `/\bsome\s+(?:things?|stuff)\b/i` (the greedy `s?` backtracks). -/
def vagueSomeThings (s : String) : Bool :=
  scanExistsB
    (fun bnd cs =>
      bnd &&
      (do
        let r ← dropLitCi "some".toList cs
        let (_, r) ← takeWs1 r
        (do
          let r1 ← dropLitCi "things".toList r
          if atWordBoundary r1 then some () else none) <|>
        (do
          let r1 ← dropLitCi "thing".toList r
          if atWordBoundary r1 then some () else none) <|>
        (do
          let r1 ← dropLitCi "stuff".toList r
          if atWordBoundary r1 then some () else none)).isSome)
    true s.toList

/-- `/\bfix\s+(?:the\s+)?(?:issue|problem|bug)\b/i` (the optional group
backtracks). -/
def vagueFixIssue (s : String) : Bool :=
  let kinds : List Char → Option Unit := fun r => do
    let r1 ← (dropLitCi "issue".toList r) <|> (dropLitCi "problem".toList r) <|>
      (dropLitCi "bug".toList r)
    if atWordBoundary r1 then some () else none
  scanExistsB
    (fun bnd cs =>
      bnd &&
      (do
        let r ← dropLitCi "fix".toList cs
        let (_, r) ← takeWs1 r
        (do
          let r1 ← dropLitCi "the".toList r
          let (_, r2) ← takeWs1 r1
          kinds r2) <|> kinds r).isSome)
    true s.toList

/-- `VAGUE_TERM_PATTERNS` (`src/lib/patterns.ts`), in declaration order. -/
def VAGUE_TERM_PATTERNS : List VagueTerm :=
  [ { pattern := vagueDangling "it", term := "it", score := 0.8 },
    { pattern := vagueDangling "this", term := "this", score := 0.7 },
    { pattern := vagueDangling "that", term := "that", score := 0.7 },
    { pattern := vagueMakeIt, term := "make it better", score := 0.6 },
    { pattern := vagueHelpOnly, term := "help", score := 0.9 },
    { pattern := vagueIncompleteQuestion, term := "incomplete question", score := 0.9 },
    { pattern := vagueSomeThings, term := "some things", score := 0.4 },
    { pattern := vagueFixIssue, term := "fix the issue", score := 0.5 } ]

/-! ## `src/engine/enhance.ts` — domain detection and ambiguity scoring -/

/-- One qualifying entry of the score list built by `detectDomain`. -/
structure ScoredDomain where
  domain : String
  score : ℚ
deriving DecidableEq

/-- The qualifying score list built by the loop of `detectDomain`: an entry
is kept only if it has at least `MIN_KEYWORD_MATCHES` case-insensitive
keyword containment matches or at least `MIN_PATTERN_MATCHES` regex
matches, and is then scored `(keywordMatches·1 + patternMatches·2) / weight`. -/
def domainScores (tbl : List DomainPattern) (rawPrompt : String) : List ScoredDomain :=
  let promptLower := jsToLower rawPrompt
  tbl.filterMap (fun dp =>
    let keywordMatches := (dp.keywords.filter (fun kw => jsIncludes promptLower (jsToLower kw))).length
    let patternMatches := (dp.patterns.filter (fun p => p rawPrompt)).length
    if keywordMatches ≥ MIN_KEYWORD_MATCHES || patternMatches ≥ MIN_PATTERN_MATCHES then
      some { domain := dp.domain,
             score := ((keywordMatches : ℚ) * 1 + (patternMatches : ℚ) * 2) / dp.weight }
    else none)

/-- Stable insertion into a descending score list (an element being inserted
comes from earlier in the original list, so on ties it goes first). -/
def insertScoreDesc (x : ScoredDomain) : List ScoredDomain → List ScoredDomain
  | [] => [x]
  | y :: ys => if x.score ≥ y.score then x :: y :: ys else y :: insertScoreDesc x ys

/-- Models `scores.sort((a, b) => b.score - a.score)`: JavaScript's
`Array.prototype.sort` is stable, and a stable sort under a consistent
comparator has a unique result, computed here by stable insertion sort. -/
def sortScoresDesc : List ScoredDomain → List ScoredDomain
  | [] => []
  | x :: xs => insertScoreDesc x (sortScoresDesc xs)

/-- Embeds `detectDomain` (`src/engine/enhance.ts`), generic in the pattern
table, which the source reads from the module-level `DOMAIN_PATTERNS`
constant: build the qualifying score list, sort it descending (stably),
and return the top domain if its score reaches `1.0`. -/
def detectDomain (tbl : List DomainPattern) (rawPrompt : String) : Option String :=
  let scores := domainScores tbl rawPrompt
  match sortScoresDesc scores with
  | [] => none
  | top :: _ => if top.score ≥ 1 then some top.domain else none

/-- The result record of `calculateAmbiguityScore`. -/
structure AmbiguityResult where
  score : ℚ
  vagueTerms : List String
deriving DecidableEq

/-- Embeds `calculateAmbiguityScore` (`src/engine/enhance.ts`): sum the
scores of the matching vague-term patterns, add the short-prompt length
penalty, cap at `1.0`. -/
def calculateAmbiguityScore (rawPrompt : String) : AmbiguityResult :=
  let matched := VAGUE_TERM_PATTERNS.filter (fun vt => vt.pattern rawPrompt)
  let vagueTerms := matched.map (fun vt => vt.term)
  let totalScore := (matched.map (fun vt => vt.score)).sum
  let lengthPenalty : ℚ :=
    if jsLength rawPrompt < 20 then 0.3 else if jsLength rawPrompt < 50 then 0.1 else 0
  { score := min 1 (totalScore + lengthPenalty), vagueTerms := vagueTerms }

/-! ## `src/types.ts` — request and analysis records -/

inductive TaskType where
  | qa
  | extract
  | summarize
deriving DecidableEq

/-- The `targetHint` values (`"local"` and `"cloud"`; `local` is a Lean
keyword, hence the constructor names). -/
inductive TargetHint where
  | localTarget
  | cloudTarget
deriving DecidableEq

structure GenerateRequest where
  rawPrompt : String
  taskType : Option TaskType := none
  targetHint : Option TargetHint := none

/-- A few-shot example pair. -/
structure Example where
  user : String
  assistant : String
deriving DecidableEq

structure PromptAnalysis where
  detectedDomain : Option String
  isCompoundQuestion : Bool
  ambiguityScore : ℚ
  suggestedExamples : List Example

structure AvailableCapabilities where
  hasCloud : Bool
  hasLocalHttp : Bool
  isMockMode : Bool
deriving DecidableEq

/-! ## `src/engine/analyze.ts` -/

structure AnalysisReport where
  needsJson : Bool
  needsCitations : Bool
  maxWords : ℤ
deriving DecidableEq

/-- Models `Math.round` for the arguments that occur here (non-negative):
round half toward positive infinity. -/
def jsRound (q : ℚ) : ℤ := ⌊q + 1 / 2⌋

/-- Embeds `analyze` (`src/engine/analyze.ts`): citation need from the task
type (default `qa`) or an academic detected domain; word budget from the
task type scaled by the complexity multiplier. -/
def analyze (req : GenerateRequest) (promptAnalysis : Option PromptAnalysis) :
    AnalysisReport :=
  let tt := req.taskType.getD .qa
  let needsCitations := tt == .qa || tt == .summarize ||
    (match promptAnalysis with
     | some pa => pa.detectedDomain == some "academic"
     | none => false)
  let baseMaxWords : ℚ := if tt == .summarize then 180 else if tt == .extract then 120 else 160
  let complexityMultiplier : ℚ :=
    match promptAnalysis with
    | some pa => 1 + pa.ambiguityScore * 0.3 + (if pa.isCompoundQuestion then 0.5 else 0)
    | none => 1
  { needsJson := true
    needsCitations := needsCitations
    maxWords := jsRound (baseMaxWords * complexityMultiplier) }

/-! ## `src/engine/route.ts` -/

/-- The four adapters, as opaque handles (their network behaviour is outside
the core). -/
inductive Adapter where
  | localEcho
  | localHttp
  | mockRealistic
  | openaiStyle
deriving DecidableEq

structure RouteDecision where
  model : String
  adapter : Adapter
deriving DecidableEq

/-- Embeds `route` (`src/engine/route.ts`): mock mode first, then the
`"local"` hint, then cloud, local HTTP, local echo. -/
def route (capabilities : AvailableCapabilities) (targetHint : Option TargetHint) :
    RouteDecision :=
  if capabilities.isMockMode then
    { model := "local/mock", adapter := .mockRealistic }
  else if targetHint == some .localTarget then
    if capabilities.hasLocalHttp then { model := "local/http", adapter := .localHttp }
    else { model := "local/echo", adapter := .localEcho }
  else if capabilities.hasCloud then
    { model := "cloud/openai-style", adapter := .openaiStyle }
  else if capabilities.hasLocalHttp then
    { model := "local/http", adapter := .localHttp }
  else
    { model := "local/echo", adapter := .localEcho }

/-! ## `src/engine/synthesize.ts` -/

/-- The fixed output schema record of a `PromptIR`. -/
structure OutputSchema where
  answer : String
  citations : String
deriving DecidableEq

structure PromptIR where
  role : String
  objective : String
  constraints : List String
  style : List String
  steps : List String
  outputSchema : OutputSchema
  examples : List Example
deriving DecidableEq

/-- Embeds `synthesize` (`src/engine/synthesize.ts`).  JavaScript truthiness
tests on optional strings (`contextInstr?.roleSuffix ? ... : ...`) also
reject the empty string, which is modelled by the `isEmpty` tests; the
optional arrays are tested only for presence (an empty array is truthy). -/
def synthesize (rawPrompt : String) (a : AnalysisReport)
    (contextInstr : Option ContextInstruction) (suggestedExamples : Option (List Example)) :
    PromptIR :=
  let constraintWord := toString (a.maxWords - 40) ++ "-" ++ toString a.maxWords ++ "-words"
  let baseConstraints := ["json-only", "cite-or-say-unknown", constraintWord]
  let constraints :=
    match contextInstr.bind (fun ci => ci.additionalConstraints) with
    | some acs => baseConstraints ++ acs
    | none => baseConstraints
  let baseStyle := ["succinct", "use table only if clearly useful"]
  let style :=
    match contextInstr.bind (fun ci => ci.additionalStyle) with
    | some ast => baseStyle ++ ast
    | none => baseStyle
  let role :=
    match contextInstr.bind (fun ci => ci.roleSuffix) with
    | some suf => if suf.isEmpty then "precise expert" else "precise expert " ++ suf
    | none => "precise expert"
  let promptHint := extractPromptHint rawPrompt
  let baseObjective :=
    match promptHint with
    | some h =>
      if h.isEmpty then "Answer the user's request accurately and concisely."
      else "Answer about " ++ h ++ " accurately and concisely."
    | none => "Answer the user's request accurately and concisely."
  let objective :=
    match contextInstr.bind (fun ci => ContextInstruction.objectivePrefix ci) with
    | some p => if p.isEmpty then baseObjective else p ++ " " ++ baseObjective
    | none => baseObjective
  let steps := ["analyze", "answer"]
  let examples := suggestedExamples.getD []
  { role := role
    objective := objective
    constraints := constraints
    style := style
    steps := steps
    outputSchema := { answer := "string", citations := "string[]" }
    examples := examples }

/-! ## Claim theorems -/

set_option maxHeartbeats 2000000 in
/-- C1: `validateOrRepair` is total: for every input string (and every
choice of the platform primitives) it returns a result with `ok = true` —
there is no `ok = false` outcome — whose value is an answer string and a
list of citation strings (by the result type); and `makeCitationUrlSafe`
never throws: on every input it returns either its argument or the literal
`"unknown"`. -/
theorem c1_validateOrRepair_total (P : JsPrims) (text s : String) :
    (validateOrRepair P text).ok = true ∧
    (makeCitationUrlSafe P.urlOk s = s ∨ makeCitationUrlSafe P.urlOk s = "unknown") := by
  constructor
  · unfold validateOrRepair
    cases jsonParse text with
    | error e => rfl
    | ok v =>
      dsimp only
      split_ifs <;> rfl
  · unfold makeCitationUrlSafe
    split_ifs <;> simp

/-- C6: `route` is a pure total function (it is defined for every
combination of capability flags and hint and returns a `RouteDecision`),
following exactly the claimed order: mock mode wins regardless of hint;
otherwise hint `"local"` yields local-HTTP when available else local-echo;
otherwise cloud when available, else local-HTTP when available, else
local-echo. -/
theorem c6_route_policy (capabilities : AvailableCapabilities)
    (targetHint : Option TargetHint) :
    (capabilities.isMockMode = true →
      route capabilities targetHint = { model := "local/mock", adapter := .mockRealistic }) ∧
    (capabilities.isMockMode = false → targetHint = some .localTarget →
      route capabilities targetHint =
        (if capabilities.hasLocalHttp then
          ({ model := "local/http", adapter := .localHttp } : RouteDecision)
         else { model := "local/echo", adapter := .localEcho })) ∧
    (capabilities.isMockMode = false → targetHint ≠ some .localTarget →
      route capabilities targetHint =
        (if capabilities.hasCloud then
          ({ model := "cloud/openai-style", adapter := .openaiStyle } : RouteDecision)
         else if capabilities.hasLocalHttp then { model := "local/http", adapter := .localHttp }
         else { model := "local/echo", adapter := .localEcho })) := by
  obtain ⟨hasCloud, hasLocalHttp, isMockMode⟩ := capabilities
  rcases targetHint with _ | th
  · cases isMockMode <;> cases hasCloud <;> cases hasLocalHttp <;> decide
  · cases th <;> cases isMockMode <;> cases hasCloud <;> cases hasLocalHttp <;> decide

/-- C6 witness: with mock mode on and every other capability available, the
hint `"cloud"` is ignored and the mock adapter is returned. -/
theorem c6_witness :
    route { hasCloud := true, hasLocalHttp := true, isMockMode := true } (some .cloudTarget) =
      { model := "local/mock", adapter := .mockRealistic } :=
  (c6_route_policy { hasCloud := true, hasLocalHttp := true, isMockMode := true }
    (some .cloudTarget)).1 rfl

/-- C7 counterexample: validation rejects the `temperatureOverride = 3.0`
overlay with kind `INVALID_TEMPERATURE`, but `loadContexts` does not
exclude it: after loading, the overlay is still resolvable from the lookup
table by its id (it is merely reported in the warning list). -/
theorem c7_counterexample :
    validateContextInstruction hotContext.instruction =
      some .INVALID_TEMPERATURE ∧
    (loadContexts [hotContext]).1.getContext "hot" = some hotContext ∧
    (loadContexts [hotContext]).2 = ["hot"] :=
  ⟨rfl, rfl, rfl⟩

/-- C7 (amended): `validateContextInstruction` accepts an overlay (returns
no error) exactly when the temperature override, if present, lies in
`[0, 2]`, the max-tokens override, if present, lies in `(0, 100000]`, and
every text field has at most 250000 characters; an overlay whose
temperature override is `3.0` is rejected with kind `INVALID_TEMPERATURE`
(whatever its other fields); and validation is a total function, so
startup does not crash on an invalid overlay — but the invalid overlay is
only reported, not excluded: `loadContexts` builds the lookup table from
the full parsed list, so every context, invalid ones included, remains
resolvable by its id. -/
theorem c7_validateContextInstruction_spec (instr : ContextInstruction) :
    (validateContextInstruction instr = none ↔
      ((∀ t, instr.temperatureOverride = some t → 0 ≤ t ∧ t ≤ 2) ∧
       (∀ m, instr.maxTokensOverride = some m → 0 < m ∧ m ≤ 100000) ∧
       (∀ s ∈ contextTextFields instr, jsLength s ≤ 250000))) ∧
    (instr.temperatureOverride = some 3 →
      validateContextInstruction instr = some .INVALID_TEMPERATURE) ∧
    (∀ (contexts : List ContextDefinition) (c : ContextDefinition), c ∈ contexts →
      ∃ d ∈ contexts, d.id = c.id ∧ (loadContexts contexts).1.getContext c.id = some d) := by
  have hmin : MIN_TEMPERATURE = 0 := rfl
  have hmax : MAX_TEMPERATURE = 2 := rfl
  refine ⟨?_, ?_, ?_⟩
  · constructor
    · intro hnone
      unfold validateContextInstruction at hnone
      split_ifs at hnone with h1 h2 h3
      refine ⟨?_, ?_, ?_⟩
      · intro t ht
        rw [ht] at h1
        simp only [Option.any, Bool.or_eq_true, decide_eq_true_eq, hmin, hmax] at h1
        push_neg at h1
        exact h1
      · intro m hm
        rw [hm] at h2
        simp only [Option.any, Bool.or_eq_true, decide_eq_true_eq] at h2
        push_neg at h2
        exact h2
      · intro s hs
        simp only [List.any_eq_true, decide_eq_true_eq, MAX_TEXT_LENGTH] at h3
        push_neg at h3
        exact h3 s hs
    · rintro ⟨ht, hm, hs⟩
      have h1 : ¬(instr.temperatureOverride.any
          (fun t => decide (t < MIN_TEMPERATURE) || decide (t > MAX_TEMPERATURE)) = true) := by
        rcases ho : instr.temperatureOverride with _ | t
        · simp [Option.any]
        · have hb := ht t ho
          simp only [Option.any, Bool.or_eq_true, decide_eq_true_eq, hmin, hmax]
          push_neg
          exact hb
      have h2 : ¬(instr.maxTokensOverride.any
          (fun m => decide (m ≤ 0) || decide (m > 100000)) = true) := by
        rcases ho : instr.maxTokensOverride with _ | m
        · simp [Option.any]
        · have hb := hm m ho
          simp only [Option.any, Bool.or_eq_true, decide_eq_true_eq]
          push_neg
          exact hb
      have h3 : ¬((contextTextFields instr).any
          (fun text => decide (jsLength text > MAX_TEXT_LENGTH)) = true) := by
        simp only [List.any_eq_true, decide_eq_true_eq, MAX_TEXT_LENGTH]
        push_neg
        exact fun s hsmem => hs s hsmem
      unfold validateContextInstruction
      rw [if_neg h1, if_neg h2, if_neg h3]
  · intro h3t
    unfold validateContextInstruction
    have hc : instr.temperatureOverride.any
        (fun t => decide (t < MIN_TEMPERATURE) || decide (t > MAX_TEMPERATURE)) = true := by
      rw [h3t]
      simp only [Option.any, Bool.or_eq_true, decide_eq_true_eq, hmin, hmax]
      norm_num
    rw [if_pos hc]
  · intro contexts c hc
    have hsome : (contexts.reverse.find? (fun d => d.id == c.id)).isSome = true :=
      List.find?_isSome.2 ⟨c, List.mem_reverse.2 hc, by simp⟩
    obtain ⟨d, hd⟩ := Option.isSome_iff_exists.1 hsome
    refine ⟨d, List.mem_reverse.1 (List.mem_of_find?_eq_some hd), ?_, hd⟩
    have hpred := List.find?_some hd
    simpa using hpred

/-- C7 witness: the two implications instantiated concretely — the
`temperatureOverride = 3.0` overlay is rejected with kind
`INVALID_TEMPERATURE`, and a one-entry context list carrying that same
invalid overlay still resolves its id from the loaded lookup table. -/
theorem c7_witness :
    validateContextInstruction { temperatureOverride := some 3 } =
      some .INVALID_TEMPERATURE ∧
    ∃ d ∈ [hotContext], d.id = "hot" ∧
      (loadContexts [hotContext]).1.getContext "hot" = some d :=
  ⟨(c7_validateContextInstruction_spec { temperatureOverride := some 3 }).2.1 rfl,
   (c7_validateContextInstruction_spec { temperatureOverride := some 3 }).2.2
     [hotContext] hotContext (List.mem_cons_self _ _)⟩

/-- C5: `analyze` always returns `needsJson = true`; `needsCitations` is
true exactly for task type `summarize`, `qa` (also the default when no task
type is given), or when the supplied analysis detected the `"academic"`
domain — so it is false for `extract` without an academic domain; and
`maxWords` is the base budget (180 for `summarize`, 120 for `extract`,
160 otherwise) multiplied by `1 + 0.3·ambiguityScore + (0.5 if compound)`
(multiplier 1 when no analysis is supplied), rounded to the nearest
integer (`Math.round`, i.e. half rounds up). -/
theorem c5_analyze_spec (req : GenerateRequest) (promptAnalysis : Option PromptAnalysis) :
    (analyze req promptAnalysis).needsJson = true ∧
    ((analyze req promptAnalysis).needsCitations = true ↔
      (req.taskType.getD .qa = .qa ∨ req.taskType.getD .qa = .summarize ∨
        ∃ pa, promptAnalysis = some pa ∧ pa.detectedDomain = some "academic")) ∧
    (analyze req promptAnalysis).maxWords =
      jsRound ((if req.taskType.getD .qa = .summarize then 180
                else if req.taskType.getD .qa = .extract then 120 else 160) *
        (match promptAnalysis with
         | some pa => 1 + 0.3 * pa.ambiguityScore + (if pa.isCompoundQuestion then 0.5 else 0)
         | none => 1)) := by
  refine ⟨rfl, ?_, ?_⟩
  · rcases req with ⟨rp, tto, th⟩
    cases promptAnalysis with
    | none =>
      rcases tto with _ | tt
      · simp [analyze]
      · cases tt <;> simp [analyze]
    | some pa =>
      rcases tto with _ | tt
      · simp [analyze]
      · cases tt <;> simp [analyze]
  · rcases req with ⟨rp, tto, th⟩
    cases promptAnalysis with
    | none =>
      rcases tto with _ | tt
      · simp [analyze]
      · cases tt <;> simp [analyze]
    | some pa =>
      rcases tto with _ | tt
      · simp [analyze]
        congr 1
        ring
      · cases tt <;> simp [analyze] <;> congr 1 <;> ring

/-- C10: for every request and every prompt analysis whose ambiguity score
lies in `[0, 1]`, `analyze` returns `maxWords` between 120 and 324
inclusive (base budget in `{120, 160, 180}` times a multiplier in
`[1, 1.8]`); consequently the lower bound `maxWords - 40` of the
word-range constraint `"<maxWords-40>-<maxWords>-words"` that `synthesize`
places at position 2 of every IR's constraint list is at least 80. -/
theorem c10_word_budget_invariant (req : GenerateRequest) (pa : PromptAnalysis)
    (h0 : 0 ≤ pa.ambiguityScore) (h1 : pa.ambiguityScore ≤ 1) :
    (120 ≤ (analyze req (some pa)).maxWords ∧ (analyze req (some pa)).maxWords ≤ 324) ∧
    80 ≤ (analyze req (some pa)).maxWords - 40 ∧
    ∀ (rawPrompt : String) (contextInstr : Option ContextInstruction)
      (ex : Option (List Example)),
      (synthesize rawPrompt (analyze req (some pa)) contextInstr ex).constraints.get? 2 =
        some (toString ((analyze req (some pa)).maxWords - 40) ++ "-" ++
          toString (analyze req (some pa)).maxWords ++ "-words") := by
  have hmw : (analyze req (some pa)).maxWords =
      jsRound ((if req.taskType.getD TaskType.qa == TaskType.summarize then (180 : ℚ)
        else if req.taskType.getD TaskType.qa == TaskType.extract then 120 else 160) *
        (1 + pa.ambiguityScore * 0.3 + (if pa.isCompoundQuestion then (0.5 : ℚ) else 0))) := rfl
  set B : ℚ := (if req.taskType.getD TaskType.qa == TaskType.summarize then (180 : ℚ)
        else if req.taskType.getD TaskType.qa == TaskType.extract then 120 else 160) with hB
  set m : ℚ := 1 + pa.ambiguityScore * 0.3 + (if pa.isCompoundQuestion then (0.5 : ℚ) else 0) with hm
  clear_value B m
  have hBlo : (120 : ℚ) ≤ B := by rw [hB]; split_ifs <;> norm_num
  have hBhi : B ≤ 180 := by rw [hB]; split_ifs <;> norm_num
  have hmlo : (1 : ℚ) ≤ m := by
    rw [hm]
    have : 0 ≤ pa.ambiguityScore * 0.3 := by positivity
    split_ifs <;> linarith
  have hmhi : m ≤ 9 / 5 := by
    rw [hm]
    have : pa.ambiguityScore * 0.3 ≤ 0.3 := by nlinarith
    split_ifs <;> linarith
  have hqlo : (120 : ℚ) ≤ B * m := by
    have h2 : (120 : ℚ) * 1 ≤ B * m := mul_le_mul hBlo hmlo zero_le_one (by linarith)
    linarith
  have hqhi : B * m ≤ 324 := by
    calc B * m ≤ 180 * (9 / 5) := mul_le_mul hBhi hmhi (by linarith) (by norm_num)
    _ = 324 := by norm_num
  have hlo : (120 : ℤ) ≤ (analyze req (some pa)).maxWords := by
    rw [hmw]
    unfold jsRound
    rw [Int.le_floor]
    push_cast
    linarith
  have hhi : (analyze req (some pa)).maxWords ≤ 324 := by
    rw [hmw]
    unfold jsRound
    have hlt : ⌊B * m + 1 / 2⌋ < 325 := by
      rw [Int.floor_lt]
      push_cast
      linarith
    omega
  refine ⟨⟨hlo, hhi⟩, by omega, ?_⟩
  intro rawPrompt contextInstr ex
  rcases hcs : contextInstr.bind (fun ci => ci.additionalConstraints) with _ | acs <;>
    simp only [synthesize, hcs] <;> rfl

/-- C10 witness: the bounds instantiated at a concrete request and a
concrete analysis with ambiguity score `1/2`. -/
theorem c10_witness :
    ((0 : ℚ) ≤ 1 / 2 ∧ (1 / 2 : ℚ) ≤ 1) ∧
    (120 ≤ (analyze { rawPrompt := "q" }
        (some { detectedDomain := none, isCompoundQuestion := false,
                ambiguityScore := 1 / 2, suggestedExamples := [] })).maxWords ∧
      (analyze { rawPrompt := "q" }
        (some { detectedDomain := none, isCompoundQuestion := false,
                ambiguityScore := 1 / 2, suggestedExamples := [] })).maxWords ≤ 324) :=
  ⟨⟨by norm_num, by norm_num⟩,
    (c10_word_budget_invariant { rawPrompt := "q" }
      { detectedDomain := none, isCompoundQuestion := false,
        ambiguityScore := 1 / 2, suggestedExamples := [] }
      (by norm_num) (by norm_num)).1⟩

/-- C9: for every input text, `calculateAmbiguityScore` returns a score in
`[0, 1]`, equal to the sum of the fixed weights of the matching vague-term
patterns plus the length penalty (`+0.3` below 20 characters, `+0.1` below
50, else `+0`), capped at 1; it is never negative because every table
weight and every penalty is non-negative. -/
theorem c9_ambiguity_score_bounds (rawPrompt : String) :
    0 ≤ (calculateAmbiguityScore rawPrompt).score ∧
    (calculateAmbiguityScore rawPrompt).score ≤ 1 ∧
    (calculateAmbiguityScore rawPrompt).score =
      min 1 (((VAGUE_TERM_PATTERNS.filter (fun vt => vt.pattern rawPrompt)).map
          (fun vt => vt.score)).sum +
        (if jsLength rawPrompt < 20 then 0.3
         else if jsLength rawPrompt < 50 then 0.1 else 0)) := by
  have hsum : 0 ≤ ((VAGUE_TERM_PATTERNS.filter (fun vt => vt.pattern rawPrompt)).map
      (fun vt => vt.score)).sum := by
    apply List.sum_nonneg
    intro q hq
    obtain ⟨vt, hvt, rfl⟩ := List.mem_map.1 hq
    have hv : vt ∈ VAGUE_TERM_PATTERNS := List.mem_of_mem_filter hvt
    simp only [VAGUE_TERM_PATTERNS, List.mem_cons, List.mem_singleton] at hv
    rcases hv with h | h | h | h | h | h | h | h | h
    all_goals first
      | (subst h; norm_num)
      | exact absurd h (List.not_mem_nil vt)
  have hpen : (0 : ℚ) ≤ (if jsLength rawPrompt < 20 then 0.3
      else if jsLength rawPrompt < 50 then 0.1 else 0) := by
    split_ifs <;> norm_num
  refine ⟨?_, ?_, rfl⟩
  · exact le_min zero_le_one (by linarith)
  · exact min_le_left 1 _

/-- C8 counterexample: the enhanced text `"what is docker"` has only 3
words, yet its objective carries the extracted topic hint `"docker"`
rather than the generic base — the word-count condition claimed for the
regex attempts does not exist on the hint path. -/
theorem c8_counterexample :
    (jsSplitWs (jsToLower "what is docker")).length = 3 ∧
    (synthesize "what is docker"
        { needsJson := true, needsCitations := true, maxWords := 160 } none none).objective =
      "Answer about docker accurately and concisely." ∧
    (synthesize "what is docker"
        { needsJson := true, needsCitations := true, maxWords := 160 } none none).objective ≠
      "Answer the user's request accurately and concisely." :=
  ⟨rfl, rfl, by decide⟩


/-- C8 (amended): the three ordered regex attempts (`what is/are X`,
`explain X`, `how to/does/do X`) are applied to every enhanced text
regardless of its word count — the `< 5` words test in the source selects
between two identical `null` results and is dead code; whenever a hint is
found the objective is `"Answer about <topic> accurately and concisely."`,
otherwise it is the generic base, and a non-empty overlay
`objectivePrefix` is prepended to that base sentence. -/
theorem c8_objective_spec (rawPrompt : String) (a : AnalysisReport)
    (contextInstr : Option ContextInstruction) (ex : Option (List Example)) :
    extractPromptHint rawPrompt =
      (((scanFirst matchWhatAt rawPrompt.toList).map String.mk) <|>
       (((scanFirst matchExplainAt rawPrompt.toList).map String.mk) <|>
        ((scanFirst matchHowAt rawPrompt.toList).map String.mk))) ∧
    (synthesize rawPrompt a contextInstr ex).objective =
      (let base :=
        match extractPromptHint rawPrompt with
        | some h =>
          if h.isEmpty then "Answer the user's request accurately and concisely."
          else "Answer about " ++ h ++ " accurately and concisely."
        | none => "Answer the user's request accurately and concisely."
      match contextInstr.bind (fun ci => ContextInstruction.objectivePrefix ci) with
      | some p => if p.isEmpty then base else p ++ " " ++ base
      | none => base) := by
  constructor
  · unfold extractPromptHint
    rcases h1 : scanFirst matchWhatAt rawPrompt.toList with _ | c1 <;>
      rcases h2 : scanFirst matchExplainAt rawPrompt.toList with _ | c2 <;>
        rcases h3 : scanFirst matchHowAt rawPrompt.toList with _ | c3 <;>
          simp [Option.orElse]
  · rfl

/-- The values `typeof` calls `"object"` other than `null`, i.e. the
truthy objects: arrays and plain objects. -/
def Json.isObjectLike : Json → Bool
  | .arr _ => true
  | .obj _ => true
  | _ => false

/-- The guard `!parsed || typeof parsed !== "object"` of the non-object
repair branch holds exactly for the values that are not arrays or
objects. -/
theorem nonobject_branch_cond (v : Json) :
    (v.isFalsy || jsTypeof v != "object") = !v.isObjectLike := by
  cases v <;> simp [Json.isFalsy, jsTypeof, Json.isObjectLike]

/-- C2 counterexample: the input `"[1, 2]"` parses to a bare array, but
`validateOrRepair` classifies it as `MISSING_FIELDS` (an array passes the
`typeof === "object"` test), not as the non-object `INVALID_TYPES` kind,
and the repaired answer is the trimmed raw input text `"[1, 2]"`, not the
re-serialization `"[1,2]"` of the parsed value. -/
theorem c2_counterexample :
    jsonParse "[1, 2]" = .ok (.arr [.num "1", .num "2"]) ∧
    (validateOrRepair jsPrimsModel "[1, 2]").originalError.map ValidationError.kind =
      some "MISSING_FIELDS" ∧
    (validateOrRepair jsPrimsModel "[1, 2]").originalError.map ValidationError.kind ≠
      some "INVALID_TYPES" ∧
    (validateOrRepair jsPrimsModel "[1, 2]").value.answer = "[1, 2]" ∧
    (validateOrRepair jsPrimsModel "[1, 2]").value.answer ≠
      jsonStringify jsPrimsModel.numToStr (.arr [.num "1", .num "2"]) :=
  ⟨rfl, rfl, by decide, rfl, by decide⟩

/-- C2 (amended): an input that parses to a value that is neither an array
nor an object — a bare number, string, boolean or `null` — takes the
non-object branch: kind `INVALID_TYPES` with the answer the JSON
re-serialization of the parsed value; a bare array instead is treated as
an object, falls into the `MISSING_FIELDS` repair, and its answer is the
trimmed raw input text. -/
theorem c2_nonobject_repair (P : JsPrims) (text : String) (v : Json)
    (h : jsonParse text = .ok v) :
    (v.isObjectLike = false →
      validateOrRepair P text =
        { ok := true
          value := { answer := jsonStringify P.numToStr v, citations := [] }
          repaired := true
          repairReason := some "Parsed value was not an object"
          originalError := some (.INVALID_TYPES ["Expected object, got " ++ jsTypeof v]) }) ∧
    (∀ es, v = .arr es →
      (validateOrRepair P text).repaired = true ∧
      (validateOrRepair P text).originalError = some (.MISSING_FIELDS ["answer", "citations"]) ∧
      (validateOrRepair P text).value = { answer := jsTrim text, citations := [] }) := by
  constructor
  · intro hno
    have hcond : (v.isFalsy || jsTypeof v != "object") = true := by
      rw [nonobject_branch_cond, hno]
      rfl
    unfold validateOrRepair
    rw [h]
    dsimp only
    rw [if_pos hcond]
  · rintro es rfl
    have hcond : ((Json.arr es).isFalsy || jsTypeof (.arr es) != "object") = false := by
      rw [nonobject_branch_cond]
      rfl
    have hdn : decimalNat? "answer" = none := rfl
    have hdn2 : decimalNat? "citations" = none := rfl
    have ha : Json.hasKey (.arr es) "answer" = false := by
      simp [Json.hasKey, hdn]
    have hc : Json.hasKey (.arr es) "citations" = false := by
      simp [Json.hasKey, hdn2]
    unfold validateOrRepair
    rw [h]
    dsimp only
    rw [if_neg (by rw [hcond]; exact fun hh => Bool.noConfusion hh)]
    rw [ha, hc]
    exact ⟨rfl, rfl, rfl⟩

/-- C2 witness: both branches of the amended claim evaluated at concrete
inputs, a bare number `"7"` and a bare array `"[1, 2]"`. -/
theorem c2_witness :
    (validateOrRepair jsPrimsModel "7" =
      { ok := true
        value := { answer := jsonStringify jsPrimsModel.numToStr (.num "7"), citations := [] }
        repaired := true
        repairReason := some "Parsed value was not an object"
        originalError := some (.INVALID_TYPES ["Expected object, got " ++ jsTypeof (.num "7")]) }) ∧
    ((validateOrRepair jsPrimsModel "[1, 2]").repaired = true ∧
      (validateOrRepair jsPrimsModel "[1, 2]").originalError =
        some (.MISSING_FIELDS ["answer", "citations"]) ∧
      (validateOrRepair jsPrimsModel "[1, 2]").value =
        { answer := jsTrim "[1, 2]", citations := [] }) :=
  ⟨(c2_nonobject_repair jsPrimsModel "7" (.num "7") rfl).1 rfl,
   (c2_nonobject_repair jsPrimsModel "[1, 2]" (.arr [.num "1", .num "2"]) rfl).2
     [.num "1", .num "2"] rfl⟩

/-- C3: evaluation at the failing input.  The source's invalid-citation
check filters the already-normalized citations with
`c === "unknown" && String(c) !== "unknown"`, a condition that is false
for every `c`, so a string citation that is not a valid URL is silently
replaced by `"unknown"` while `repaired` stays `false` — the pass-through
property claimed for `repaired = false` fails, contradicting the module's
own issue message (citations "were invalid URLs (coerced to unknown)")
which that dead filter was meant to raise.  The claimed round-trip on
valid input does hold, as the second conjunct shows. -/
theorem c3_invalid_url_citation_eval :
    ((validateOrRepair jsPrimsModel
        "\x7b\"answer\":\"A\",\"citations\":[\"not a url\"]\x7d").repaired = false ∧
     (validateOrRepair jsPrimsModel
        "\x7b\"answer\":\"A\",\"citations\":[\"not a url\"]\x7d").value.citations =
       ["unknown"] ∧
     (validateOrRepair jsPrimsModel
        "\x7b\"answer\":\"A\",\"citations\":[\"not a url\"]\x7d").value.citations ≠
       ["not a url"]) ∧
    validateOrRepair jsPrimsModel
        "\x7b\"answer\":\"A\",\"citations\":[\"https://x.example/\"]\x7d" =
      { ok := true
        value := { answer := "A", citations := ["https://x.example/"] }
        repaired := false } :=
  ⟨⟨rfl, rfl, by decide⟩, rfl⟩

/-- The selection rule of the claim, written directly: the first entry of
the list attaining the maximal score (an earlier entry wins ties). -/
def earliestBest : List ScoredDomain → Option ScoredDomain
  | [] => none
  | x :: xs =>
    match earliestBest xs with
    | none => some x
    | some b => some (if b.score > x.score then b else x)

/-- The head of a stable descending insertion is the tie-preferring
maximum of the inserted element and the previous head. -/
theorem head?_insertScoreDesc (x : ScoredDomain) (l : List ScoredDomain) :
    (insertScoreDesc x l).head? =
      some (match l.head? with
            | none => x
            | some y => if x.score ≥ y.score then x else y) := by
  cases l with
  | nil => rfl
  | cons y ys =>
    show (if x.score ≥ y.score then x :: y :: ys else y :: insertScoreDesc x ys).head? =
      some (if x.score ≥ y.score then x else y)
    split_ifs with h <;> rfl

/-- The head of the stable descending sort is the earliest
maximal-score element. -/
theorem head?_sortScoresDesc (l : List ScoredDomain) :
    (sortScoresDesc l).head? = earliestBest l := by
  induction l with
  | nil => rfl
  | cons x xs ih =>
    unfold sortScoresDesc earliestBest
    rw [head?_insertScoreDesc, ih]
    cases hb : earliestBest xs with
    | none => rfl
    | some b =>
      dsimp only
      by_cases h : b.score > x.score
      · rw [if_neg (not_le.2 h), if_pos h]
      · rw [if_pos (not_lt.1 h), if_neg h]

/-- `earliestBest` returns `none` only on the empty list, and otherwise an
element that every entry is bounded by and that strictly beats every entry
before it. -/
theorem earliestBest_decomp (l : List ScoredDomain) :
    (earliestBest l = none → l = []) ∧
    (∀ b, earliestBest l = some b →
      ∃ l₁ l₂, l = l₁ ++ b :: l₂ ∧ (∀ t ∈ l, t.score ≤ b.score) ∧
        ∀ t ∈ l₁, t.score < b.score) := by
  induction l with
  | nil =>
    exact ⟨fun _ => rfl, fun b hb => by cases hb⟩
  | cons x xs ih =>
    constructor
    · intro h
      unfold earliestBest at h
      rcases he : earliestBest xs with _ | c <;> rw [he] at h
      · exact absurd h (by simp)
      · exact absurd h (by simp)
    · intro b hb
      unfold earliestBest at hb
      rcases he : earliestBest xs with _ | c
      · rw [he] at hb
        change some x = some b at hb
        injection hb with hb
        subst hb
        have hxs : xs = [] := ih.1 he
        subst hxs
        exact ⟨[], [], rfl, by simp, by simp⟩
      · rw [he] at hb
        change some (if c.score > x.score then c else x) = some b at hb
        obtain ⟨l₁, l₂, hdec, hmax, hstrict⟩ := ih.2 c he
        by_cases hgt : c.score > x.score
        · rw [if_pos hgt] at hb
          injection hb with hb
          subst hb
          refine ⟨x :: l₁, l₂, by rw [hdec, List.cons_append], ?_, ?_⟩
          · intro t ht
            rcases List.mem_cons.1 ht with rfl | ht2
            · exact le_of_lt hgt
            · exact hmax t ht2
          · intro t ht
            rcases List.mem_cons.1 ht with rfl | ht2
            · exact hgt
            · exact hstrict t ht2
        · rw [if_neg hgt] at hb
          injection hb with hb
          subst hb
          refine ⟨[], xs, rfl, ?_, by simp⟩
          intro t ht
          rcases List.mem_cons.1 ht with rfl | ht2
          · exact le_refl _
          · exact le_trans (hmax t ht2) (not_lt.1 hgt)

/-- C4: `detectDomain` considers a pattern-table entry only if it has at
least `MIN_KEYWORD_MATCHES = 2` keyword matches or `MIN_PATTERN_MATCHES
= 1` regex matches (that is the qualification test of `domainScores`),
scoring each qualifying entry `(keywordMatches·1 + patternMatches·2) /
weight`; the result is `none` exactly when every qualifying score is below
`1.0` (in particular when nothing qualifies), and otherwise it is the
domain of a qualifying entry whose score is at least `1.0`, is maximal,
and strictly exceeds every qualifying entry declared before it — so a tie
on the best score is won by the entry earlier in declaration order. -/
theorem c4_detectDomain_spec (tbl : List DomainPattern) (rawPrompt : String) :
    MIN_KEYWORD_MATCHES = 2 ∧ MIN_PATTERN_MATCHES = 1 ∧
    (detectDomain tbl rawPrompt = none ↔
      ∀ s ∈ domainScores tbl rawPrompt, s.score < 1) ∧
    (∀ d, detectDomain tbl rawPrompt = some d →
      ∃ l₁ b l₂, domainScores tbl rawPrompt = l₁ ++ b :: l₂ ∧ b.domain = d ∧ 1 ≤ b.score ∧
        (∀ t ∈ domainScores tbl rawPrompt, t.score ≤ b.score) ∧
        ∀ t ∈ l₁, t.score < b.score) := by
  have hdd : detectDomain tbl rawPrompt =
      (match (sortScoresDesc (domainScores tbl rawPrompt)).head? with
       | none => none
       | some top => if top.score ≥ 1 then some top.domain else none) := by
    unfold detectDomain
    dsimp only
    cases sortScoresDesc (domainScores tbl rawPrompt) <;> rfl
  rw [head?_sortScoresDesc] at hdd
  refine ⟨rfl, rfl, ?_, ?_⟩
  · rcases he : earliestBest (domainScores tbl rawPrompt) with _ | b
    · rw [he] at hdd
      change detectDomain tbl rawPrompt = none at hdd
      have hnil := (earliestBest_decomp _).1 he
      rw [hdd, hnil]
      simp
    · rw [he] at hdd
      change detectDomain tbl rawPrompt =
        (if b.score ≥ 1 then some b.domain else none) at hdd
      obtain ⟨l₁, l₂, hdec, hmax, _⟩ := (earliestBest_decomp _).2 b he
      have hbmem : b ∈ domainScores tbl rawPrompt := by
        rw [hdec]
        exact List.mem_append_right _ (List.mem_cons_self _ _)
      rw [hdd]
      by_cases h1 : b.score ≥ 1
      · rw [if_pos h1]
        constructor
        · intro habs
          cases habs
        · intro hall
          exact absurd h1 (not_le.2 (hall b hbmem))
      · rw [if_neg h1]
        constructor
        · intro _ s hs
          exact lt_of_le_of_lt (hmax s hs) (not_le.1 h1)
        · intro _
          rfl
  · intro d hd
    rcases he : earliestBest (domainScores tbl rawPrompt) with _ | b
    · rw [he] at hdd
      change detectDomain tbl rawPrompt = none at hdd
      rw [hdd] at hd
      cases hd
    · rw [he] at hdd
      change detectDomain tbl rawPrompt =
        (if b.score ≥ 1 then some b.domain else none) at hdd
      rw [hdd] at hd
      by_cases h1 : b.score ≥ 1
      · rw [if_pos h1] at hd
        injection hd with hd
        obtain ⟨l₁, l₂, hdec, hmax, hstrict⟩ := (earliestBest_decomp _).2 b he
        exact ⟨l₁, b, l₂, hdec, hd, h1, hmax, hstrict⟩
      · rw [if_neg h1] at hd
        cases hd

/-- C4 witness: the selection characterization instantiated at a one-entry
table that qualifies by two keyword matches on the prompt
`"function class"`. -/
theorem c4_witness :
    ∃ l₁ b l₂,
      domainScores
          [ { domain := "code", keywords := ["function", "class"], patterns := [], weight := 1 } ]
          "function class" = l₁ ++ b :: l₂ ∧
        b.domain = "code" ∧ 1 ≤ b.score ∧
        (∀ t ∈ domainScores
            [ { domain := "code", keywords := ["function", "class"], patterns := [], weight := 1 } ]
            "function class", t.score ≤ b.score) ∧
        ∀ t ∈ l₁, t.score < b.score := by
  have hds : domainScores
      [ { domain := "code", keywords := ["function", "class"], patterns := [], weight := 1 } ]
      "function class" =
      [ { domain := "code", score := (((2 : ℕ) : ℚ) * 1 + ((0 : ℕ) : ℚ) * 2) / 1 } ] := rfl
  have hdet : detectDomain
      [ { domain := "code", keywords := ["function", "class"], patterns := [], weight := 1 } ]
      "function class" = some "code" := by
    unfold detectDomain
    dsimp only
    rw [hds]
    show (if ((((2 : ℕ) : ℚ) * 1 + ((0 : ℕ) : ℚ) * 2) / 1) ≥ 1 then some "code" else none) =
      some "code"
    rw [if_pos (by norm_num)]
  exact (c4_detectDomain_spec
    [ { domain := "code", keywords := ["function", "class"], patterns := [], weight := 1 } ]
    "function class").2.2.2 "code" hdet
